import Mathlib

/-!
Verification of the data-preparation pipeline in `dataprep/tools_amazon.py`.

Strings are embedded as `List Char`.  Python `str.replace` (left-to-right,
non-overlapping) and the four `re.sub` calls of `clean_text` are embedded as
structurally recursive scanners so that every definition evaluates by kernel
reduction.  Python float parameters of the splitter are modelled as exact
rationals, and `int()` on a non-negative value as integer floor.  The external
collaborators (the `langdetect` detector and the `sklearn` shuffler) are
modelled as explicit parameters, as the spec treats them as black boxes.
-/

namespace ToolsAmazon

/-- Characters written via code points to keep the development ASCII-robust. -/
def cTab : Char := Char.ofNat 9
def cLf : Char := Char.ofNat 10
def cVt : Char := Char.ofNat 11
def cFf : Char := Char.ofNat 12
def cCr : Char := Char.ofNat 13
def cZwsp : Char := Char.ofNat 0x200b
def cZwj : Char := Char.ofNat 0x200d
def cApos : Char := Char.ofNat 39
def cQuoteL : Char := Char.ofNat 0x2018
def cQuoteR : Char := Char.ofNat 0x2019
def cDQuoteL : Char := Char.ofNat 0x201c
def cDQuoteR : Char := Char.ofNat 0x201d
def cAcute : Char := Char.ofNat 0xb4
def cGrave : Char := Char.ofNat 0x60
def cBksl : Char := Char.ofNat 92
def cLBrace : Char := Char.ofNat 0x7b
def cRBrace : Char := Char.ofNat 0x7d
def cLBrack : Char := Char.ofNat 91
def cRBrack : Char := Char.ofNat 93
def cCaret : Char := Char.ofNat 94
def cUnders : Char := Char.ofNat 95
def cTilde : Char := Char.ofNat 126
def cPipe : Char := Char.ofNat 124
def cSect : Char := Char.ofNat 0xa7
def cUuml : Char := Char.ofNat 0xfc
def cMale : Char := Char.ofNat 0x2642
def cFemale : Char := Char.ofNat 0x2640
def cVs16 : Char := Char.ofNat 0xfe0f
def cDQ : Char := Char.ofNat 34

/-- Python `str.replace pat rep` (nonempty `pat`): scan left to right, replace
non-overlapping occurrences.  `skip` counts pattern characters still to be
consumed after a match, making the recursion structural. -/
def replaceGo (pat rep : List Char) : Nat → List Char → List Char
  | _, [] => []
  | Nat.succ k, _ :: rest => replaceGo pat rep k rest
  | 0, c :: rest =>
    if pat.isPrefixOf (c :: rest) then rep ++ replaceGo pat rep (pat.length - 1) rest
    else c :: replaceGo pat rep 0 rest

def replaceList (pat rep : List Char) (s : List Char) : List Char :=
  replaceGo pat rep 0 s

/-- Decides whether `pat` occurs as a contiguous subsequence of `s`. -/
def hasPat (pat : List Char) : List Char → Bool
  | [] => pat.isPrefixOf []
  | c :: rest => pat.isPrefixOf (c :: rest) || hasPat pat rest

/-- `string.printable` of CPython: digits, lowercase, uppercase, punctuation,
whitespace, in that order. -/
def string_printable : List Char :=
  ['0','1','2','3','4','5','6','7','8','9'] ++
  ['a','b','c','d','e','f','g','h','i','j','k','l','m','n','o','p','q','r','s',
   't','u','v','w','x','y','z'] ++
  ['A','B','C','D','E','F','G','H','I','J','K','L','M','N','O','P','Q','R','S',
   'T','U','V','W','X','Y','Z'] ++
  ['!', cDQ, '#','$','%','&', cApos, '(',')','*','+',',','-','.','/',':',';',
   '<','=','>','?','@', cLBrack, cBksl, cRBrack, cCaret, cUnders, cGrave,
   cLBrace, cPipe, cRBrace, cTilde] ++
  [' ', cTab, cLf, cCr, cVt, cFf]

/-- `generate_alphabet` from the source: `string.printable` with five blocks
removed by `str.replace`. -/
def generate_alphabet : List Char :=
  let a := string_printable
  let a := replaceList ['A','B','C','D','E','F','G','H','I','J','K','L','M','N',
    'O','P','Q','R','S','T','U','V','W','X','Y','Z'] [] a
  let a := replaceList [cLBrack, cBksl, cRBrack, cCaret, cUnders, cGrave,
    cLBrace, cPipe, cRBrace, cTilde] [] a
  let a := replaceList [cTab, cLf, cCr, cVt, cFf] [] a
  let a := replaceList [';','<','=','>'] [] a
  let a := replaceList ['*','+'] [] a
  a

/-- The exclusions named by the spec for the Alphabet Builder. -/
def spec_excluded_chars : List Char :=
  ['A','B','C','D','E','F','G','H','I','J','K','L','M','N','O','P','Q','R','S',
   'T','U','V','W','X','Y','Z'] ++
  [cLBrack, cBksl, cRBrack, cCaret, cUnders, cGrave, cLBrace, cPipe, cRBrace,
   cTilde] ++
  [cTab, cLf, cCr, cVt, cFf] ++
  [';','<','=','>'] ++
  ['*','+']

/-- The spec's description of the Alphabet Builder output: the printable set
in order, with the excluded characters removed. -/
def spec_allowed_chars : List Char :=
  string_printable.filter (fun c => !(spec_excluded_chars.contains c))

/-- Python whitespace (`str.isspace`, and the `\s` class of `re`). -/
def isPySpace (c : Char) : Bool :=
  c == ' ' || c == cTab || c == cLf || c == cCr || c == cVt || c == cFf ||
  c.toNat == 0x1c || c.toNat == 0x1d || c.toNat == 0x1e || c.toNat == 0x1f ||
  c.toNat == 0x85 || c.toNat == 0xa0 || c.toNat == 0x1680 ||
  (0x2000 ≤ c.toNat && c.toNat ≤ 0x200a) || c.toNat == 0x2028 ||
  c.toNat == 0x2029 || c.toNat == 0x202f || c.toNat == 0x205f ||
  c.toNat == 0x3000

def firstIsDigit : List Char → Bool
  | [] => false
  | d :: _ => d.isDigit

/-- `re.sub(r'@[0-9]+', '', s)`: an at sign followed by at least one digit is
removed together with the maximal digit run; scanning resumes after the
match.  The Boolean records that a digit run is being consumed. -/
def subRefIdGo : Bool → List Char → List Char
  | _, [] => []
  | skipping, c :: rest =>
    if skipping && c.isDigit then subRefIdGo true rest
    else if c == '@' && firstIsDigit rest then subRefIdGo true rest
    else c :: subRefIdGo false rest

def subRefId (s : List Char) : List Char := subRefIdGo false s

/-- The regex `\w` class, restricted to ASCII as used by the repository's
signatures (letters, digits, underscore). -/
def isWordCh (c : Char) : Bool := c.isAlphanum || c == cUnders

/-- `re.sub(r'(\^\w*)$', '', s)`: the unique caret followed only by word
characters up to the end of the string is removed together with that
word-character suffix. -/
def subSignature (s : List Char) : List Char :=
  match s.reverse.dropWhile isWordCh with
  | c :: rest2 => if c == cCaret then rest2.reverse else s
  | [] => s

/-- Does a part-marker `(<digit>/<digit>)` start at the head of the list? -/
def isMarker : List Char → Bool
  | a :: d1 :: b :: d2 :: e :: _ =>
    a == '(' && d1.isDigit && b == '/' && d2.isDigit && e == ')'
  | _ => false

/-- `re.sub(r"\([0-9]/[0-9]\)", "", s)`: five-character part markers are
removed; the counter skips the remaining matched characters structurally. -/
def subPartMarkerGo : Nat → List Char → List Char
  | Nat.succ k, _ :: rest => subPartMarkerGo k rest
  | _, [] => []
  | 0, c :: rest =>
    if isMarker (c :: rest) then subPartMarkerGo 4 rest
    else c :: subPartMarkerGo 0 rest

def subPartMarker (s : List Char) : List Char := subPartMarkerGo 0 s

/-- Length of the non-space run after a URL scheme of length `n`, provided it
is nonempty (the regex requires `\S+` after the scheme). -/
def urlTailLen (s : List Char) (n : Nat) : Option Nat :=
  let run := (s.drop n).takeWhile (fun c => !isPySpace c)
  if run.length = 0 then none else some (n + run.length)

/-- If `https?://\S+|www\.\S+` matches at the head of `s`, the length of the
(greedy) match. -/
def urlMatchLen (s : List Char) : Option Nat :=
  if ['h','t','t','p',':','/','/'].isPrefixOf s then urlTailLen s 7
  else if ['h','t','t','p','s',':','/','/'].isPrefixOf s then urlTailLen s 8
  else if ['w','w','w','.'].isPrefixOf s then urlTailLen s 4
  else none

/-- `re.sub(r'https?://\S+|www\.\S+', '§', s)`: each URL match is replaced by
the single anonymization character. -/
def subURLGo : Nat → List Char → List Char
  | Nat.succ k, _ :: rest => subURLGo k rest
  | _, [] => []
  | 0, c :: rest =>
    match urlMatchLen (c :: rest) with
    | some n => cSect :: subURLGo (n - 1) rest
    | none => c :: subURLGo 0 rest

def subURL (s : List Char) : List Char := subURLGo 0 s

/-- `re.sub(' +', ' ', s)`: collapse runs of literal spaces into one. -/
def collapseGo : Bool → List Char → List Char
  | _, [] => []
  | inRun, c :: rest =>
    if c == ' ' then
      (if inRun then collapseGo true rest else ' ' :: collapseGo true rest)
    else c :: collapseGo false rest

def collapseSpaces (s : List Char) : List Char := collapseGo false s

/-- Python `str.strip()`: drop whitespace from both ends. -/
def pyStrip (s : List Char) : List Char :=
  ((s.dropWhile isPySpace).reverse.dropWhile isPySpace).reverse

def patAmp : List Char := ['&','a','m','p',';']
def patAmazonHelp : List Char := ['@','a','m','a','z','o','n','h','e','l','p']
def patEmojiM : List Char := [cZwj, cMale, cVs16]
def patEmojiF : List Char := [cZwj, cFemale, cVs16]

/-- `clean_text` from the source, step for step and in source order (the `‘`
replacement appears twice in the source as well). -/
def clean_text (tweet : List Char) : List Char :=
  let t := replaceList [cTab] [' '] tweet
  let t := replaceList [cLf] [' '] t
  let t := replaceList [cCr] [' '] t
  let t := replaceList [cVt] [' '] t
  let t := replaceList [cFf] [' '] t
  let t := replaceList [cZwsp] [' '] t
  let t := replaceList [cZwj] [' '] t
  let t := replaceList [';'] [','] t
  let t := replaceList [cQuoteL] [cApos] t
  let t := replaceList [cQuoteL] [cApos] t
  let t := replaceList [cAcute] [cApos] t
  let t := replaceList [cGrave] [cApos] t
  let t := replaceList [cQuoteR] [cApos] t
  let t := replaceList [cDQuoteR] [cApos] t
  let t := replaceList [cDQuoteL] [cApos] t
  let t := replaceList [cBksl, cLBrace] [cBksl, '('] t
  let t := replaceList [cBksl, cRBrace] [cBksl, ')'] t
  let t := replaceList [cBksl, cLBrack] [cBksl, '('] t
  let t := replaceList [cBksl, cRBrack] [cBksl, ')'] t
  let t := replaceList patAmp ['&'] t
  let t := replaceList patAmazonHelp [] t
  let t := subRefId t
  let t := subSignature t
  let t := replaceList patEmojiM [] t
  let t := replaceList patEmojiF [] t
  let t := subPartMarker t
  let t := subURL t
  let t := collapseSpaces t
  pyStrip t

end ToolsAmazon

namespace ToolsAmazon

example : clean_text ['@','a','m','a','z','o','n','@','a','m','a','z','o','n',
    'h','e','l','p','h','e','l','p'] = patAmazonHelp := by decide

example : clean_text patAmazonHelp = [] := by decide

example : clean_text ['a',' ',' ','b',' '] = ['a',' ','b'] := by decide

example : clean_text ['s','e','e',' ','w','w','w','.','x','.','c','o','m',' ',
    'n','o','w'] = ['s','e','e',' ',cSect,' ','n','o','w'] := by decide

example : clean_text ['h','i',' ','@','1','2','3',' ','y','o','u',' ','(','1',
    '/','2',')',' ',cCaret,'i','b'] = ['h','i',' ','y','o','u'] := by decide

example : clean_text ['(','(','1','/','2',')','1','/','2',')'] =
    ['(','1','/','2',')'] := by decide

example : clean_text ['w','w','w','w','.','x'] = ['w', cSect] := by decide

example : clean_text ['h','t','t','p',':','/','/',' ','x'] =
    ['h','t','t','p',':','/','/',' ','x'] := by decide

/-- No at-sign immediately followed by a digit occurs in the list. -/
def noAtDigit : List Char → Bool
  | c :: d :: rest => !(c == '@' && d.isDigit) && noAtDigit (d :: rest)
  | _ => true

/-- No part marker `(<digit>/<digit>)` occurs in the list. -/
def noMarker : List Char → Bool
  | [] => true
  | c :: rest => !(isMarker (c :: rest)) && noMarker rest

/-- No URL pattern occurrence anywhere in the list. -/
def noUrl : List Char → Bool
  | [] => true
  | c :: rest => (urlMatchLen (c :: rest)).isNone && noUrl rest

/-- No two adjacent literal spaces. -/
def noDoubleSpace : List Char → Bool
  | c :: d :: rest => !(c == ' ' && d == ' ') && noDoubleSpace (d :: rest)
  | _ => true

def headNotSpace : List Char → Bool
  | [] => true
  | c :: _ => !(isPySpace c)

/-- No leading and no trailing Python whitespace. -/
def trimmedB (t : List Char) : Bool := headNotSpace t && headNotSpace t.reverse

/-- Single characters rewritten or consumed by some step of `clean_text`. -/
def forbiddenSingles : List Char :=
  [cTab, cLf, cCr, cVt, cFf, cZwsp, cZwj, ';', cQuoteL, cAcute, cGrave,
   cQuoteR, cDQuoteR, cDQuoteL, cBksl, cCaret]

/-- A list on which every step of `clean_text` has nothing left to rewrite:
none of the rewritten single characters, no residual company mention, no
reference id, no part marker, no URL token, no double space, and no
untrimmed end. -/
def cleanStable (t : List Char) : Bool :=
  forbiddenSingles.all (fun c => !(hasPat [c] t)) &&
  !(hasPat patAmazonHelp t) && noAtDigit t && noMarker t && noUrl t &&
  noDoubleSpace t && trimmedB t

lemma hasPat_mem {p : List Char} : ∀ {s : List Char}, hasPat p s = true →
    ∀ a ∈ p, a ∈ s := by
  intro s
  induction s with
  | nil =>
    intro h a ha
    have hp : p = [] := by simpa [hasPat] using h
    subst hp
    cases ha
  | cons c rest ih =>
    intro h a ha
    simp only [hasPat, Bool.or_eq_true] at h
    rcases h with h | h
    · exact (List.isPrefixOf_iff_prefix.mp h).subset ha
    · exact List.mem_cons_of_mem c (ih h a ha)

lemma hasPat_single_mem {a : Char} {s : List Char} (h : hasPat [a] s = true) :
    a ∈ s :=
  hasPat_mem h a (List.mem_singleton_self a)

lemma not_mem_of_hasPat_single_false {a : Char} {s : List Char}
    (h : hasPat [a] s = false) : a ∉ s := by
  intro hmem
  induction s with
  | nil => cases hmem
  | cons c rest ih =>
    simp only [hasPat, Bool.or_eq_false_iff] at h
    rcases List.mem_cons.mp hmem with rfl | hmem'
    · have hpre : [a].isPrefixOf (a :: rest) = true :=
        List.isPrefixOf_iff_prefix.mpr ⟨rest, rfl⟩
      rw [h.1] at hpre
      cases hpre
    · exact ih h.2 hmem'

lemma hasPat_false_of_single {a : Char} {pat s : List Char}
    (hmem : a ∈ pat) (h : hasPat [a] s = false) : hasPat pat s = false := by
  cases hp : hasPat pat s
  · rfl
  · exact absurd (hasPat_mem hp a hmem) (not_mem_of_hasPat_single_false h)

lemma replaceGo_id {pat rep : List Char} : ∀ {s : List Char},
    hasPat pat s = false → replaceGo pat rep 0 s = s := by
  intro s
  induction s with
  | nil => intro _; rfl
  | cons c rest ih =>
    intro h
    simp only [hasPat, Bool.or_eq_false_iff] at h
    simp only [replaceGo, h.1, if_false, Bool.false_eq_true]
    exact congrArg (c :: ·) (ih h.2)

lemma replaceList_id {pat rep s : List Char} (h : hasPat pat s = false) :
    replaceList pat rep s = s :=
  replaceGo_id h

lemma noAtDigit_tail {c : Char} {rest : List Char}
    (h : noAtDigit (c :: rest) = true) : noAtDigit rest = true := by
  cases rest with
  | nil => rfl
  | cons d rest' =>
    simp only [noAtDigit, Bool.and_eq_true] at h
    exact h.2

lemma subRefIdGo_id : ∀ {s : List Char}, noAtDigit s = true →
    subRefIdGo false s = s := by
  intro s
  induction s with
  | nil => intro _; rfl
  | cons c rest ih =>
    intro h
    have hmatch : (c == '@' && firstIsDigit rest) = false := by
      cases rest with
      | nil => simp [firstIsDigit]
      | cons d rest' =>
        have h' := h
        simp only [noAtDigit, Bool.and_eq_true, Bool.not_eq_true'] at h'
        simpa [firstIsDigit] using h'.1
    simp only [subRefIdGo, Bool.false_and, Bool.false_eq_true, if_false, hmatch]
    exact congrArg (c :: ·) (ih (noAtDigit_tail h))

lemma subRefId_id {s : List Char} (h : noAtDigit s = true) : subRefId s = s :=
  subRefIdGo_id h

lemma subSignature_id {s : List Char} (h : cCaret ∉ s) : subSignature s = s := by
  unfold subSignature
  cases hd : s.reverse.dropWhile isWordCh with
  | nil => rfl
  | cons c rest2 =>
    have hc : c ∈ s := by
      have : c ∈ s.reverse.dropWhile isWordCh := by simp [hd]
      exact List.mem_reverse.mp ((List.dropWhile_sublist isWordCh).subset this)
    have : (c == cCaret) = false := by
      cases hcc : c == cCaret
      · rfl
      · exact absurd (beq_iff_eq.mp hcc ▸ hc) h
    simp [this]

lemma subPartMarkerGo_id : ∀ {s : List Char}, noMarker s = true →
    subPartMarkerGo 0 s = s := by
  intro s
  induction s with
  | nil => intro _; rfl
  | cons c rest ih =>
    intro h
    simp only [noMarker, Bool.and_eq_true, Bool.not_eq_true'] at h
    simp only [subPartMarkerGo, h.1, Bool.false_eq_true, if_false]
    exact congrArg (c :: ·) (ih h.2)

lemma subPartMarker_id {s : List Char} (h : noMarker s = true) :
    subPartMarker s = s :=
  subPartMarkerGo_id h

lemma subURLGo_id : ∀ {s : List Char}, noUrl s = true → subURLGo 0 s = s := by
  intro s
  induction s with
  | nil => intro _; rfl
  | cons c rest ih =>
    intro h
    simp only [noUrl, Bool.and_eq_true, Option.isNone_iff_eq_none] at h
    simp only [subURLGo, h.1]
    exact congrArg (c :: ·) (ih h.2)

lemma subURL_id {s : List Char} (h : noUrl s = true) : subURL s = s :=
  subURLGo_id h

lemma noDoubleSpace_tail {c : Char} {rest : List Char}
    (h : noDoubleSpace (c :: rest) = true) : noDoubleSpace rest = true := by
  cases rest with
  | nil => rfl
  | cons d rest' =>
    simp only [noDoubleSpace, Bool.and_eq_true] at h
    exact h.2

def headNotBlank : List Char → Bool
  | [] => true
  | c :: _ => !(c == ' ')

lemma collapseGo_id : ∀ {s : List Char}, noDoubleSpace s = true →
    (collapseGo false s = s ∧ (headNotBlank s = true → collapseGo true s = s)) := by
  intro s
  induction s with
  | nil => intro _; exact ⟨rfl, fun _ => rfl⟩
  | cons c rest ih =>
    intro h
    have htail := noDoubleSpace_tail h
    rcases ih htail with ⟨ihf, iht⟩
    by_cases hc : c = ' '
    · subst hc
      have hrest : headNotBlank rest = true := by
        cases rest with
        | nil => rfl
        | cons d rest' =>
          have h' := h
          simp only [noDoubleSpace, Bool.and_eq_true, Bool.not_eq_true'] at h'
          have hd : (d == ' ') = false := by simpa using h'.1
          simp [headNotBlank, hd]
      constructor
      · simp only [collapseGo, if_pos rfl, beq_self_eq_true, if_true]
        rw [if_neg (by simp)]
        exact congrArg (' ' :: ·) (iht hrest)
      · intro habs
        simp [headNotBlank] at habs
    · have hcb : (c == ' ') = false := by simpa using hc
      constructor
      · simp only [collapseGo, hcb, Bool.false_eq_true, if_false]
        exact congrArg (c :: ·) ihf
      · intro _
        simp only [collapseGo, hcb, Bool.false_eq_true, if_false]
        exact congrArg (c :: ·) ihf

lemma collapseSpaces_id {s : List Char} (h : noDoubleSpace s = true) :
    collapseSpaces s = s :=
  (collapseGo_id h).1

lemma dropWhile_id_of_head {s : List Char} (h : headNotSpace s = true) :
    s.dropWhile isPySpace = s := by
  cases s with
  | nil => rfl
  | cons c rest =>
    simp only [headNotSpace, Bool.not_eq_true'] at h
    simp [List.dropWhile_cons, h]

lemma pyStrip_id {s : List Char} (h : trimmedB s = true) : pyStrip s = s := by
  simp only [trimmedB, Bool.and_eq_true] at h
  unfold pyStrip
  rw [dropWhile_id_of_head h.1, dropWhile_id_of_head h.2, List.reverse_reverse]

/-- On a `cleanStable` list, every step of `clean_text` is the identity. -/
lemma clean_text_id {t : List Char} (h : cleanStable t = true) :
    clean_text t = t := by
  simp only [cleanStable, Bool.and_eq_true, List.all_eq_true,
    Bool.not_eq_true'] at h
  obtain ⟨⟨⟨⟨⟨⟨hsing, hamz⟩, hat⟩, hmk⟩, hurl⟩, hds⟩, htr⟩ := h
  have hTab := hsing cTab (by decide)
  have hLf := hsing cLf (by decide)
  have hCr := hsing cCr (by decide)
  have hVt := hsing cVt (by decide)
  have hFf := hsing cFf (by decide)
  have hZwsp := hsing cZwsp (by decide)
  have hZwj := hsing cZwj (by decide)
  have hSemi := hsing ';' (by decide)
  have hQl := hsing cQuoteL (by decide)
  have hAc := hsing cAcute (by decide)
  have hGr := hsing cGrave (by decide)
  have hQr := hsing cQuoteR (by decide)
  have hDr := hsing cDQuoteR (by decide)
  have hDl := hsing cDQuoteL (by decide)
  have hBk := hsing cBksl (by decide)
  have hCar := hsing cCaret (by decide)
  simp only [clean_text]
  rw [replaceList_id hTab, replaceList_id hLf, replaceList_id hCr,
    replaceList_id hVt, replaceList_id hFf, replaceList_id hZwsp,
    replaceList_id hZwj, replaceList_id hSemi, replaceList_id hQl,
    replaceList_id hQl,
    replaceList_id hAc, replaceList_id hGr, replaceList_id hQr,
    replaceList_id hDr, replaceList_id hDl,
    replaceList_id (hasPat_false_of_single (by decide) hBk),
    replaceList_id (hasPat_false_of_single (by decide) hBk),
    replaceList_id (hasPat_false_of_single (by decide) hBk),
    replaceList_id (hasPat_false_of_single (by decide) hBk),
    replaceList_id (hasPat_false_of_single (by decide) hSemi),
    replaceList_id hamz, subRefId_id hat,
    subSignature_id (not_mem_of_hasPat_single_false hCar),
    replaceList_id (hasPat_false_of_single (by decide) hZwj),
    replaceList_id (hasPat_false_of_single (by decide) hZwj),
    subPartMarker_id hmk, subURL_id hurl, collapseSpaces_id hds, pyStrip_id htr]

def c1_input : List Char :=
  ['@','a','m','a','z','o','n','@','a','m','a','z','o','n','h','e','l','p',
   'h','e','l','p']

/-- Claim C1 as stated is false: on the input `@amazon@amazonhelphelp` the
company-mention removal leaves a new `@amazonhelp` behind, which a second
application of `clean_text` removes, so the transform is not idempotent. -/
theorem C1_counterexample :
    ¬ (clean_text (clean_text c1_input) = clean_text c1_input) := by decide

/-- Claim C1, amended: `clean_text` is idempotent on every input whose
cleaned output is `cleanStable`, i.e. retains no pattern that any step of the
transform rewrites (the counterexample shows a residual `@amazonhelp` can
survive one pass). -/
theorem C1_amended_idempotent (s : List Char)
    (h : cleanStable (clean_text s) = true) :
    clean_text (clean_text s) = clean_text s :=
  clean_text_id h

theorem C1_amended_idempotent_witness :
    cleanStable (clean_text ['o','k',' ','t','h','x']) = true ∧
    clean_text (clean_text ['o','k',' ','t','h','x']) =
      clean_text ['o','k',' ','t','h','x'] :=
  ⟨by decide, C1_amended_idempotent ['o','k',' ','t','h','x'] (by decide)⟩

end ToolsAmazon

namespace ToolsAmazon

/-- `process_x_text` from the source: characters outside the alphabet become
the marker `ü`, then spaces are collapsed and the ends trimmed. -/
def process_x_text (tweet A : List Char) : List Char :=
  pyStrip (collapseSpaces (tweet.map (fun c => if c ∈ A then c else cUuml)))

/-- `process_y_text` from the source: characters outside the alphabet become
a space, then spaces are collapsed and the ends trimmed. -/
def process_y_text (tweet A : List Char) : List Char :=
  pyStrip (collapseSpaces (tweet.map (fun c => if c ∈ A then c else ' ')))

lemma mem_collapseGo : ∀ {s : List Char} (b : Bool) {c : Char},
    c ∈ collapseGo b s → c ∈ s := by
  intro s
  induction s with
  | nil => intro b c h; simp [collapseGo] at h
  | cons d rest ih =>
    intro b c h
    by_cases hd : d = ' '
    · subst hd
      simp only [collapseGo, beq_self_eq_true, if_true] at h
      cases b with
      | true => exact List.mem_cons_of_mem _ (ih true h)
      | false =>
        rcases List.mem_cons.mp h with rfl | h'
        · exact List.mem_cons_self _ _
        · exact List.mem_cons_of_mem _ (ih true h')
    · have hdb : (d == ' ') = false := by simpa using hd
      simp only [collapseGo, hdb, Bool.false_eq_true, if_false] at h
      rcases List.mem_cons.mp h with rfl | h'
      · exact List.mem_cons_self _ _
      · exact List.mem_cons_of_mem _ (ih false h')

lemma mem_pyStrip {c : Char} {s : List Char} (h : c ∈ pyStrip s) : c ∈ s := by
  unfold pyStrip at h
  have h1 := List.mem_reverse.mp h
  have h2 := (List.dropWhile_sublist isPySpace).subset h1
  have h3 := List.mem_reverse.mp h2
  exact (List.dropWhile_sublist isPySpace).subset h3

def noSS (a b : Char) : Prop := ¬ (a = ' ' ∧ b = ' ')

lemma noDS_iff_chain : ∀ {s : List Char},
    noDoubleSpace s = true ↔ s.Chain' noSS := by
  intro s
  induction s with
  | nil => simp [noDoubleSpace]
  | cons c rest ih =>
    cases rest with
    | nil => simp [noDoubleSpace, noSS]
    | cons d rest' =>
      rw [List.chain'_cons, ← ih]
      simp only [noDoubleSpace, Bool.and_eq_true, Bool.not_eq_true']
      constructor
      · rintro ⟨h1, h2⟩
        refine ⟨fun hab => ?_, h2⟩
        rw [hab.1, hab.2] at h1
        simp at h1
      · rintro ⟨h1, h2⟩
        refine ⟨?_, h2⟩
        by_cases hc : c = ' '
        · by_cases hdd : d = ' '
          · exact absurd ⟨hc, hdd⟩ h1
          · simp [hc, hdd]
        · simp [hc]

lemma noDS_reverse {s : List Char} (h : noDoubleSpace s = true) :
    noDoubleSpace s.reverse = true := by
  rw [noDS_iff_chain] at h ⊢
  rw [List.chain'_reverse]
  exact List.Chain'.imp (fun a b hab => fun hba => hab ⟨hba.2, hba.1⟩) h

lemma noDS_dropWhile {p : Char → Bool} : ∀ {s : List Char},
    noDoubleSpace s = true → noDoubleSpace (s.dropWhile p) = true := by
  intro s
  induction s with
  | nil => intro h; exact h
  | cons c rest ih =>
    intro h
    rw [List.dropWhile_cons]
    by_cases hc : p c = true
    · simp only [hc, if_true]
      exact ih (noDoubleSpace_tail h)
    · simp only [hc, if_false]
      exact h

lemma noDS_pyStrip {s : List Char} (h : noDoubleSpace s = true) :
    noDoubleSpace (pyStrip s) = true :=
  noDS_reverse (noDS_dropWhile (noDS_reverse (noDS_dropWhile h)))

lemma collapseGo_headNotBlank : ∀ (s : List Char),
    headNotBlank (collapseGo true s) = true := by
  intro s
  induction s with
  | nil => rfl
  | cons c rest ih =>
    by_cases hc : c = ' '
    · subst hc
      simpa [collapseGo] using ih
    · have hcb : (c == ' ') = false := by simpa using hc
      simp [collapseGo, hcb, headNotBlank]

lemma noDS_cons {x : Char} {L : List Char} (hL : noDoubleSpace L = true)
    (hx : (x == ' ') = false ∨ headNotBlank L = true) :
    noDoubleSpace (x :: L) = true := by
  cases L with
  | nil => rfl
  | cons d L' =>
    simp only [noDoubleSpace, Bool.and_eq_true, Bool.not_eq_true']
    refine ⟨?_, hL⟩
    rcases hx with hx | hx
    · simp [hx]
    · have hd : (d == ' ') = false := by simpa [headNotBlank] using hx
      simp [hd]

lemma collapseGo_noDS : ∀ (s : List Char) (b : Bool),
    noDoubleSpace (collapseGo b s) = true := by
  intro s
  induction s with
  | nil => intro b; rfl
  | cons c rest ih =>
    intro b
    by_cases hc : c = ' '
    · subst hc
      cases b with
      | true => simpa [collapseGo] using ih true
      | false =>
        simp only [collapseGo, beq_self_eq_true, if_true, Bool.false_eq_true,
          if_false]
        exact noDS_cons (ih true) (Or.inr (collapseGo_headNotBlank rest))
    · have hcb : (c == ' ') = false := by simpa using hc
      simp only [collapseGo, hcb, Bool.false_eq_true, if_false]
      exact noDS_cons (ih false) (Or.inl hcb)

lemma headNotSpace_dropWhile : ∀ (u : List Char),
    headNotSpace (u.dropWhile isPySpace) = true := by
  intro u
  induction u with
  | nil => rfl
  | cons c rest ih =>
    rw [List.dropWhile_cons]
    by_cases hc : isPySpace c = true
    · simp only [hc, if_true]
      exact ih
    · simp only [hc, if_false]
      simpa [headNotSpace] using hc

lemma headNotSpace_of_head?_eq {u v : List Char} (h : u.head? = v.head?)
    (hv : headNotSpace v = true) : headNotSpace u = true := by
  cases u with
  | nil => rfl
  | cons c urest =>
    cases v with
    | nil => cases h
    | cons d vrest =>
      have : c = d := by simpa using h
      subst this
      simpa [headNotSpace] using hv

lemma trimmedB_pyStrip : ∀ (u : List Char), trimmedB (pyStrip u) = true := by
  intro u
  have h2 : headNotSpace (pyStrip u).reverse = true := by
    unfold pyStrip
    rw [List.reverse_reverse]
    exact headNotSpace_dropWhile _
  have h1 : headNotSpace (pyStrip u) = true := by
    unfold pyStrip
    cases hw : ((u.dropWhile isPySpace).reverse).dropWhile isPySpace with
    | nil => rfl
    | cons c w' =>
      rcases (List.dropWhile_suffix isPySpace :
        List.IsSuffix ((u.dropWhile isPySpace).reverse.dropWhile isPySpace)
          ((u.dropWhile isPySpace).reverse)) with ⟨t, ht⟩
      have hlast : ((c :: w').reverse).head? = (u.dropWhile isPySpace).head? := by
        rw [List.head?_reverse]
        rw [← hw]
        rw [← List.getLast?_reverse (u.dropWhile isPySpace)]
        calc ((u.dropWhile isPySpace).reverse.dropWhile isPySpace).getLast?
            = (t ++ (u.dropWhile isPySpace).reverse.dropWhile isPySpace).getLast? := by
              rw [List.getLast?_append_of_ne_nil t (by rw [hw]; simp)]
          _ = ((u.dropWhile isPySpace).reverse).getLast? := by rw [ht]
      exact headNotSpace_of_head?_eq hlast (headNotSpace_dropWhile u)
  unfold trimmedB
  rw [h1, h2]
  rfl

/-- Claim C3: every character of the question-side projection lies in the
alphabet or is the marker `ü`; every character of the answer-side projection
lies in the alphabet or is a space; both results have collapsed spaces and
trimmed ends. -/
theorem C3_projection_closure (s A : List Char) :
    (∀ c ∈ process_x_text s A, c ∈ A ∨ c = cUuml) ∧
    (∀ c ∈ process_y_text s A, c ∈ A ∨ c = ' ') ∧
    noDoubleSpace (process_x_text s A) = true ∧
    noDoubleSpace (process_y_text s A) = true ∧
    trimmedB (process_x_text s A) = true ∧
    trimmedB (process_y_text s A) = true := by
  refine ⟨?_, ?_, ?_, ?_, trimmedB_pyStrip _, trimmedB_pyStrip _⟩
  · intro c hc
    have h1 := mem_collapseGo false (mem_pyStrip hc)
    rcases List.mem_map.mp h1 with ⟨d, _, hd⟩
    by_cases hmem : d ∈ A
    · left
      rw [if_pos hmem] at hd
      exact hd ▸ hmem
    · right
      rw [if_neg hmem] at hd
      exact hd.symm
  · intro c hc
    have h1 := mem_collapseGo false (mem_pyStrip hc)
    rcases List.mem_map.mp h1 with ⟨d, _, hd⟩
    by_cases hmem : d ∈ A
    · left
      rw [if_pos hmem] at hd
      exact hd ▸ hmem
    · right
      rw [if_neg hmem] at hd
      exact hd.symm
  · exact noDS_pyStrip (collapseGo_noDS _ false)
  · exact noDS_pyStrip (collapseGo_noDS _ false)

theorem C3_projection_closure_witness :
    cUuml ∈ process_x_text ['a','b','~','c'] generate_alphabet ∧
    (cUuml ∈ generate_alphabet ∨ cUuml = cUuml) ∧
    (' ' ∈ generate_alphabet ∨ (' ' : Char) = ' ') :=
  ⟨by decide,
   (C3_projection_closure ['a','b','~','c'] generate_alphabet).1 cUuml (by decide),
   (C3_projection_closure ['a','b','~','c'] generate_alphabet).2.1 ' ' (by decide)⟩

end ToolsAmazon

namespace ToolsAmazon

/-- `vectorize_tweet` from the source: one integer per character, via the
character-index dictionary, defaulting to 0 for unknown characters. -/
def vectorize_tweet (tweet : List Char) (char2idx : Char → Option Nat) :
    List Nat :=
  tweet.map (fun c => (char2idx c).getD 0)

/-- The `char2idx` dictionary of `get_amazon_dataset`: each alphabet
character maps to its 1-based position in `generate_alphabet`. -/
def char2idx (c : Char) : Option Nat :=
  (generate_alphabet.indexOf? c).map (fun i => i + 1)

example : char2idx 'a' = some 11 := by decide
example : char2idx cUuml = none := by decide

/-- Claim C4: the vectorizer emits exactly one value per character, each
value is the dictionary's assigned index for the character (or 0 when the
character is absent), and every index the pipeline dictionary assigns is at
least 1. -/
theorem C4_vectorize_tweet_spec (s : List Char) (M : Char → Option Nat) :
    (vectorize_tweet s M).length = s.length ∧
    (∀ i, ∀ h : i < s.length,
      (vectorize_tweet s M)[i]? = some ((M (s.get ⟨i, h⟩)).getD 0)) ∧
    (∀ c k, char2idx c = some k → 1 ≤ k) := by
  refine ⟨List.length_map s _, ?_, ?_⟩
  · intro i h
    simp [vectorize_tweet, List.getElem?_map, List.getElem?_eq_getElem h,
      List.get_eq_getElem]
  · intro c k hk
    simp only [char2idx, Option.map_eq_some'] at hk
    rcases hk with ⟨i, _, hik⟩
    omega

theorem C4_vectorize_tweet_spec_witness :
    (vectorize_tweet ['a','~'] char2idx).length = 2 ∧
    (vectorize_tweet ['a','~'] char2idx)[0]? =
      some ((char2idx (['a','~'].get ⟨0, by decide⟩)).getD 0) ∧
    1 ≤ 11 :=
  ⟨(C4_vectorize_tweet_spec ['a','~'] char2idx).1,
   (C4_vectorize_tweet_spec ['a','~'] char2idx).2.1 0 (by decide),
   (C4_vectorize_tweet_spec ['a','~'] char2idx).2.2 'a' 11 (by decide)⟩

/-- Maximum length over a list of sequences (`len(max(Q, key=len))` for a
nonempty `Q`). -/
def maxLenOf (l : List (List Nat)) : Nat :=
  l.foldl (fun acc v => max acc v.length) 0

/-- Left-zero-padding of one sequence to width `L`. -/
def padTo (L : Nat) (v : List Nat) : List Nat :=
  List.replicate (L - v.length) 0 ++ v

/-- `vectorize_dataset` from the source.  On an empty side Python's
`max(..., key=len)` raises `ValueError`, modelled as `none`. -/
def vectorize_dataset (qs as : List (List Char)) (M : Char → Option Nat) :
    Option (List (List Nat) × List (List Nat)) :=
  match qs, as with
  | [], _ => none
  | _, [] => none
  | _ :: _, _ :: _ =>
    let Q := qs.map (fun t => vectorize_tweet t M)
    let A := as.map (fun t => vectorize_tweet t M)
    let maxLength := max (maxLenOf Q) (maxLenOf A)
    some (Q.map (padTo maxLength), A.map (padTo maxLength))

lemma le_foldl_max : ∀ (l : List (List Nat)) (a : Nat),
    a ≤ l.foldl (fun acc v => max acc v.length) a := by
  intro l
  induction l with
  | nil => intro a; exact Nat.le_refl a
  | cons u l ih =>
    intro a
    exact Nat.le_trans (Nat.le_max_left a u.length) (ih (max a u.length))

lemma mem_le_foldl_max {v : List Nat} : ∀ {l : List (List Nat)} (a : Nat),
    v ∈ l → v.length ≤ l.foldl (fun acc v => max acc v.length) a := by
  intro l
  induction l with
  | nil => intro a h; cases h
  | cons u l ih =>
    intro a h
    rcases List.mem_cons.mp h with rfl | h'
    · exact Nat.le_trans (Nat.le_max_right a v.length) (le_foldl_max l _)
    · exact ih (max a u.length) h'

lemma mem_le_maxLenOf {v : List Nat} {l : List (List Nat)} (h : v ∈ l) :
    v.length ≤ maxLenOf l :=
  mem_le_foldl_max 0 h

lemma padTo_length {L : Nat} {v : List Nat} (h : v.length ≤ L) :
    (padTo L v).length = L := by
  simp [padTo]
  omega

lemma padTo_drop (L : Nat) (v : List Nat) :
    (padTo L v).drop (L - v.length) = v := by
  unfold padTo
  have h := List.drop_left (List.replicate (L - v.length) 0) v
  rwa [List.length_replicate] at h

lemma padTo_take (L : Nat) (v : List Nat) :
    (padTo L v).take (L - v.length) = List.replicate (L - v.length) 0 := by
  unfold padTo
  have h := List.take_left (List.replicate (L - v.length) 0) v
  rwa [List.length_replicate] at h

/-- Claim C5: all rows of both produced matrices share one width, the
maximum length across both sides combined; each row is its unpadded
vectorized sequence preceded by a contiguous zero prefix, so the suffix
after the padding is the sequence unchanged. -/
theorem C5_padding_invariant (qs as : List (List Char))
    (M : Char → Option Nat) (Q A : List (List Nat))
    (h : vectorize_dataset qs as M = some (Q, A)) :
    ∃ L,
      L = max (maxLenOf (qs.map (fun t => vectorize_tweet t M)))
              (maxLenOf (as.map (fun t => vectorize_tweet t M))) ∧
      (∀ r ∈ Q, r.length = L) ∧ (∀ r ∈ A, r.length = L) ∧
      Q = qs.map (fun t => padTo L (vectorize_tweet t M)) ∧
      A = as.map (fun t => padTo L (vectorize_tweet t M)) ∧
      (∀ v : List Nat, (padTo L v).drop (L - v.length) = v ∧
        (padTo L v).take (L - v.length) = List.replicate (L - v.length) 0) := by
  cases qs with
  | nil => simp [vectorize_dataset] at h
  | cons q0 qs' =>
    cases as with
    | nil => simp [vectorize_dataset] at h
    | cons a0 as' =>
      simp only [vectorize_dataset, Option.some_inj] at h
      have hQ := (congrArg Prod.fst h).symm
      have hA := (congrArg Prod.snd h).symm
      simp only at hQ hA
      refine ⟨max (maxLenOf ((q0 :: qs').map (fun t => vectorize_tweet t M)))
              (maxLenOf ((a0 :: as').map (fun t => vectorize_tweet t M))),
        rfl, ?_, ?_, ?_, ?_, fun v => ⟨padTo_drop _ v, padTo_take _ v⟩⟩
      · intro r hr
        rw [hQ, List.map_map] at hr
        rcases List.mem_map.mp hr with ⟨t, ht, rfl⟩
        exact padTo_length (Nat.le_trans
          (mem_le_maxLenOf (List.mem_map.mpr ⟨t, ht, rfl⟩))
          (Nat.le_max_left _ _))
      · intro r hr
        rw [hA, List.map_map] at hr
        rcases List.mem_map.mp hr with ⟨t, ht, rfl⟩
        exact padTo_length (Nat.le_trans
          (mem_le_maxLenOf (List.mem_map.mpr ⟨t, ht, rfl⟩))
          (Nat.le_max_right _ _))
      · rw [hQ, List.map_map]
        rfl
      · rw [hA, List.map_map]
        rfl

theorem C5_padding_invariant_witness :
    vectorize_dataset [['a']] [['a','b']] char2idx =
      some ([[0, 11]], [[11, 12]]) ∧
    (∃ L, ∀ r ∈ [[0, 11]], r.length = L) := by
  refine ⟨by decide, ?_⟩
  obtain ⟨L, _, h1, _⟩ :=
    C5_padding_invariant [['a']] [['a','b']] char2idx [[0, 11]] [[11, 12]]
      (by decide)
  exact ⟨L, h1⟩

/-- Claim C6: the out-of-alphabet marker `ü` and the URL anonymization
character `§` lie outside the alphabet and the character index, and the
vectorizer encodes any position holding them as 0, the padding value; a
question containing the marker therefore yields a vector containing 0. -/
theorem C6_marker_encodes_zero :
    cUuml ∉ generate_alphabet ∧ cSect ∉ generate_alphabet ∧
    char2idx cUuml = none ∧ char2idx cSect = none ∧
    (∀ (s : List Char) (i : Nat), ∀ h : i < s.length,
      (s.get ⟨i, h⟩ = cUuml ∨ s.get ⟨i, h⟩ = cSect) →
      (vectorize_tweet s char2idx)[i]? = some 0) ∧
    (∀ s : List Char, cUuml ∈ s → (0 : Nat) ∈ vectorize_tweet s char2idx) := by
  refine ⟨by decide, by decide, by decide, by decide, ?_, ?_⟩
  · intro s i h hm
    have : (char2idx (s.get ⟨i, h⟩)).getD 0 = 0 := by
      rcases hm with hm | hm <;> rw [hm] <;> decide
    simp [vectorize_tweet, List.getElem?_map, List.getElem?_eq_getElem h,
      List.get_eq_getElem] at this ⊢
    exact this
  · intro s hs
    exact List.mem_map.mpr ⟨cUuml, hs, by decide⟩

theorem C6_marker_encodes_zero_witness :
    (vectorize_tweet ['a', cUuml] char2idx)[1]? = some 0 ∧
    (0 : Nat) ∈ vectorize_tweet ['z', cUuml] char2idx :=
  ⟨C6_marker_encodes_zero.2.2.2.2.1 ['a', cUuml] 1 (by decide)
     (Or.inl (by decide)),
   C6_marker_encodes_zero.2.2.2.2.2 ['z', cUuml] (by decide)⟩

end ToolsAmazon

namespace ToolsAmazon

/-- Python `int()` applied to a rational: truncation toward zero.  The float
fraction parameters of the splitter are modelled as exact rationals. -/
def pyInt (q : ℚ) : Int := q.num / q.den

def train_val_cutoff (n : Nat) (val_size test_size : ℚ) : Nat :=
  (pyInt ((n : ℚ) * (1 - (val_size + test_size)))).toNat

def val_test_cutoff (n : Nat) (test_size : ℚ) : Nat :=
  (pyInt ((n : ℚ) * (1 - test_size))).toNat

/-- `train_test_val_split` from the source, after the external paired
shuffle: two cutoffs, then three contiguous row ranges.  Question and answer
rows are kept synchronized by splitting the paired row list. -/
def train_test_val_split {α : Type} (pairs : List α)
    (val_size test_size : ℚ) : List α × List α × List α :=
  let c1 := train_val_cutoff pairs.length val_size test_size
  let c2 := val_test_cutoff pairs.length test_size
  (pairs.take c1, (pairs.drop c1).take (c2 - c1), pairs.drop c2)

/-- Claim C7: for fractions (1/10, 1/10) on 100 shuffled rows the cutoffs
are floor(100·0.8) = 80 and floor(100·0.9) = 90, the partition sizes are
80/10/10, and the three partitions together are a permutation of the input
rows, so every row occurs exactly once. -/
theorem C7_split_partition {α : Type} (input shuffled : List α)
    (hperm : shuffled.Perm input) (hlen : shuffled.length = 100) :
    train_val_cutoff 100 (1/10) (1/10) = 80 ∧
    val_test_cutoff 100 (1/10) = 90 ∧
    (train_test_val_split shuffled (1/10) (1/10)).1.length = 80 ∧
    (train_test_val_split shuffled (1/10) (1/10)).2.1.length = 10 ∧
    (train_test_val_split shuffled (1/10) (1/10)).2.2.length = 10 ∧
    ((train_test_val_split shuffled (1/10) (1/10)).1 ++
      (train_test_val_split shuffled (1/10) (1/10)).2.1 ++
      (train_test_val_split shuffled (1/10) (1/10)).2.2).Perm input := by
  have h80 : train_val_cutoff 100 (1/10) (1/10) = 80 := by
    norm_num [train_val_cutoff, pyInt]
    decide
  have h90 : val_test_cutoff 100 (1/10) = 90 := by
    norm_num [val_test_cutoff, pyInt]
    decide
  have hsplit : train_test_val_split shuffled (1/10) (1/10) =
      (shuffled.take 80, (shuffled.drop 80).take 10, shuffled.drop 90) := by
    simp only [train_test_val_split, hlen, h80, h90]
  have hrecomb : shuffled.take 80 ++ (shuffled.drop 80).take 10 ++
      shuffled.drop 90 = shuffled := by
    rw [List.append_assoc]
    have h1 : (shuffled.drop 80).drop 10 = shuffled.drop 90 := by
      rw [List.drop_drop]
    rw [← h1, List.take_append_drop, List.take_append_drop]
  refine ⟨h80, h90, ?_, ?_, ?_, ?_⟩
  · rw [hsplit]; simp [hlen]
  · rw [hsplit]; simp [hlen]
  · rw [hsplit]; simp [hlen]
  · rw [hsplit]
    simpa [hrecomb] using hperm

theorem C7_split_partition_witness :
    train_val_cutoff 100 (1/10) (1/10) = 80 ∧
    (train_test_val_split (List.range 100) (1/10) (1/10)).1.length = 80 ∧
    ((train_test_val_split (List.range 100) (1/10) (1/10)).1 ++
      (train_test_val_split (List.range 100) (1/10) (1/10)).2.1 ++
      (train_test_val_split (List.range 100) (1/10) (1/10)).2.2).Perm
      (List.range 100) := by
  obtain ⟨h1, _, h3, _, _, h6⟩ :=
    C7_split_partition (List.range 100) (List.range 100)
      (List.Perm.refl _) (by simp)
  exact ⟨h1, h3, h6⟩

end ToolsAmazon

namespace ToolsAmazon

/-- One row of the raw message table (`twcs.csv`). -/
structure Row where
  tweet_id : Nat
  author_id : List Char
  inbound : Bool
  in_response_to_tweet_id : Option Nat
  text : List Char
deriving DecidableEq

def amazonHelpId : List Char := "AmazonHelp".toList
def enTag : List Char := "en".toList
def marker12 : List Char := ['(','1','/','2',')']
def marker22 : List Char := ['(','2','/','2',')']

/-- The fixed token list `remove_for_langdetect` of `check_language`. -/
def remove_for_langdetect : List (List Char) :=
  ["amazon fire tv stick".toList, "fire tv stick".toList,
   "amazonfiretvstick".toList, "amazonmusicunlimited".toList,
   "amazon kindle unlimited".toList, "amazon echo dot".toList,
   "prime music".toList]

/-- The text actually handed to the detector: the fix-up tokens are removed
first when any of them occurs in the tweet. -/
def langdetect_input (tweet : List Char) : List Char :=
  if remove_for_langdetect.any (fun e => hasPat e tweet) then
    remove_for_langdetect.foldl (fun acc e => replaceList e [] acc) tweet
  else tweet

/-- `check_language` from the source, with the external `langdetect.detect`
as an explicit parameter; a raised exception is modelled as `Except.error`
and answered with the tag `en`. -/
def check_language (detect : List Char → Except Unit (List Char))
    (tweet : List Char) : List Char :=
  match detect (langdetect_input tweet) with
  | Except.ok lang => lang
  | Except.error _ => enTag

/-- Claim C9: a detector failure is never surfaced; `check_language` returns
the target-language tag `en` instead. -/
theorem C9_fail_open (detect : List Char → Except Unit (List Char))
    (tweet : List Char) (e : Unit)
    (h : detect (langdetect_input tweet) = Except.error e) :
    check_language detect tweet = enTag := by
  unfold check_language
  rw [h]

theorem C9_fail_open_witness :
    (fun _ => (Except.error () : Except Unit (List Char)))
      (langdetect_input ['h','i']) = Except.error () ∧
    check_language (fun _ => Except.error ()) ['h','i'] = enTag :=
  ⟨rfl, C9_fail_open (fun _ => Except.error ()) ['h','i'] () rfl⟩

/-- Step 1 of `organize_QA_dataframe`: inbound messages with no reply-to
reference (conversation starters). -/
def chat_starters (df : List Row) : List Row :=
  df.filter (fun m => m.inbound && m.in_response_to_tweet_id.isNone)

/-- Step 2: the equality join attaching every message whose reply-to
reference equals a starter's identifier. -/
def paired_exchanges (df : List Row) : List (Row × Row) :=
  (chat_starters df).flatMap (fun q =>
    (df.filter (fun a => a.in_response_to_tweet_id == some q.tweet_id)).map
      (fun a => (q, a)))

/-- Step 3: keep only pairs answered by the fixed company handle. -/
def company_filtered (df : List Row) : List (Row × Row) :=
  (paired_exchanges df).filter (fun p => p.2.author_id == amazonHelpId)

def lower_pair (p : Row × Row) : List Char × List Char :=
  (p.1.text.map Char.toLower, p.2.text.map Char.toLower)

/-- `organize_QA_dataframe` from the source: starters joined to answers,
company filter, lowercasing, language filter, completeness filter, cleaning,
and the two alphabet projections. -/
def organize_QA_dataframe (df : List Row)
    (detect : List Char → Except Unit (List Char)) (alphabet : List Char) :
    List (List Char × List Char) :=
  let ex := (company_filtered df).map lower_pair
  let ex := ex.filter (fun p =>
    check_language detect p.1 == enTag && check_language detect p.2 == enTag)
  let ex := ex.filter (fun p =>
    !(marker12.isSuffixOf p.2) && !(marker22.isSuffixOf p.2))
  let ex := ex.map (fun p => (clean_text p.1, clean_text p.2))
  ex.map (fun p => (process_x_text p.1 alphabet, process_y_text p.2 alphabet))

/-- Claim C8: every pair surviving the company filter has the fixed
responder as answer author, a customer-initiated question, and no reply-to
reference on the question; and every final Exchange of the reconstructor
arises from such a pair by lowercasing, cleaning and projection. -/
theorem C8_reconstructor_filters (df : List Row)
    (detect : List Char → Except Unit (List Char)) (alphabet : List Char) :
    (∀ p ∈ company_filtered df, p.2.author_id = amazonHelpId ∧
      p.1.inbound = true ∧ p.1.in_response_to_tweet_id = none) ∧
    (∀ e ∈ organize_QA_dataframe df detect alphabet,
      ∃ p ∈ company_filtered df,
        p.2.author_id = amazonHelpId ∧ p.1.inbound = true ∧
        p.1.in_response_to_tweet_id = none ∧
        e = (process_x_text (clean_text (p.1.text.map Char.toLower)) alphabet,
             process_y_text (clean_text (p.2.text.map Char.toLower))
               alphabet)) := by
  have main : ∀ p ∈ company_filtered df, p.2.author_id = amazonHelpId ∧
      p.1.inbound = true ∧ p.1.in_response_to_tweet_id = none := by
    intro p hp
    obtain ⟨hpPaired, hAuth⟩ := List.mem_filter.mp hp
    rcases List.mem_flatMap.mp hpPaired with ⟨q, hq, hpm⟩
    rcases List.mem_map.mp hpm with ⟨a, _, heq⟩
    obtain ⟨_, hcond⟩ := List.mem_filter.mp hq
    simp only [Bool.and_eq_true, Option.isNone_iff_eq_none] at hcond
    subst heq
    exact ⟨by simpa using hAuth, hcond.1, hcond.2⟩
  refine ⟨main, ?_⟩
  intro e he
  simp only [organize_QA_dataframe] at he
  rcases List.mem_map.mp he with ⟨u, hu, rfl⟩
  rcases List.mem_map.mp hu with ⟨w, hw, rfl⟩
  have hw1 := (List.mem_filter.mp hw).1
  have hw2 := (List.mem_filter.mp hw1).1
  rcases List.mem_map.mp hw2 with ⟨p, hp, rfl⟩
  obtain ⟨ha, hi, hn⟩ := main p hp
  refine ⟨p, hp, ha, hi, hn, ?_⟩
  simp only [lower_pair]

theorem C8_reconstructor_filters_witness :
    (Row.mk 2 amazonHelpId false (some 1) ['o','k']).author_id =
      amazonHelpId ∧
    (Row.mk 1 ['u'] true none ['h','i']).inbound = true ∧
    (Row.mk 1 ['u'] true none ['h','i']).in_response_to_tweet_id = none :=
  (C8_reconstructor_filters
    [Row.mk 1 ['u'] true none ['h','i'],
     Row.mk 2 amazonHelpId false (some 1) ['o','k']]
    (fun _ => Except.ok enTag) generate_alphabet).1
    (Row.mk 1 ['u'] true none ['h','i'],
     Row.mk 2 amazonHelpId false (some 1) ['o','k']) (by decide)

/-- `get_amazon_dataset` from the source, with the data load, the detector
and the shuffler as parameters (file reading and printing omitted): builds
the alphabet and dictionary, reconstructs and processes the exchanges,
vectorizes, and splits. -/
def get_amazon_dataset (df : List Row)
    (detect : List Char → Except Unit (List Char)) (val_size test_size : ℚ)
    (shuffle : List (List Nat × List Nat) → List (List Nat × List Nat)) :
    Option (List (List Nat × List Nat) × List (List Nat × List Nat) ×
      List (List Nat × List Nat)) :=
  let ex := organize_QA_dataframe df detect generate_alphabet
  match vectorize_dataset (ex.map Prod.fst) (ex.map Prod.snd) char2idx with
  | none => none
  | some (Q, A) => some (train_test_val_split (shuffle (Q.zip A)) val_size
      test_size)

/-- Claim C10: when no exchange survives filtering the run aborts (Python's
`max` on an empty sequence raises, modelled as `none`); the assembler never
returns empty train/validation/test matrices silently. -/
theorem C10_empty_abort (df : List Row)
    (detect : List Char → Except Unit (List Char)) (val_size test_size : ℚ)
    (shuffle : List (List Nat × List Nat) → List (List Nat × List Nat))
    (h : organize_QA_dataframe df detect generate_alphabet = []) :
    get_amazon_dataset df detect val_size test_size shuffle = none ∧
    (∀ M : Char → Option Nat, vectorize_dataset [] [] M = none) := by
  constructor
  · simp only [get_amazon_dataset, h]
    rfl
  · intro M
    rfl

theorem C10_empty_abort_witness :
    get_amazon_dataset [] (fun _ => Except.ok enTag) (1/10) (1/10) id =
      none :=
  (C10_empty_abort [] (fun _ => Except.ok enTag) (1/10) (1/10) id rfl).1

end ToolsAmazon

namespace ToolsAmazon

/-- Claim C2: `generate_alphabet` is a fixed constant (hence identical and
order-stable on every call); it equals the printable-ASCII sequence with
exactly the spec's exclusions removed, contains no character twice, and keeps
the space character. -/
theorem C2_alphabet_spec :
    generate_alphabet = spec_allowed_chars ∧
    generate_alphabet.Nodup ∧ ' ' ∈ generate_alphabet := by
  refine ⟨by decide, by decide, by decide⟩

end ToolsAmazon
